import Mathlib

/-!
Verification of the changelog-manager core: the `Entry` data model
(`src/entry.rs`), JSON (de)serialization, the aggregation engine
(`src/merge.rs`), and the entry-store / changelog filesystem layer
(`src/fs_manager.rs`), shallowly embedded in Lean.

Conventions of the embedding:
* Rust `String` becomes Lean `String`; comparisons on Rust strings are
  byte-lexicographic on UTF-8, which coincides with lexicographic order on
  Unicode scalar values, i.e. on `List Char`.
* Fallible Rust code (`Result`, `io::Result`) becomes `Except`.
* serde-derived (de)serialization is modeled by an explicit JSON value type
  plus a renderer modeling `serde_json`'s `PrettyFormatter` and a parser
  modeling `serde_json::from_str` (integer-only numbers: entry documents
  contain no numbers, and non-integer numbers are rejected as parse errors).
* The filesystem is an explicit state record threaded through the
  operations of `fs_manager.rs`.
-/

namespace Changelog

/-- The changelog category enumeration from `src/entry.rs` (`EntryType`),
in declaration order: Added, Changed, Fixed, Removed, Deprecated, Security,
Technical. `Changed` carries the source's `#[default]` attribute. -/
inductive EntryType where
  | Added
  | Changed
  | Fixed
  | Removed
  | Deprecated
  | Security
  | Technical
deriving DecidableEq, Repr

/-- The source's `#[default]` variant of `EntryType` (`Changed`). -/
def EntryType.default : EntryType := .Changed

/-- Position of a variant in the declaration order; the derived Rust
`Ord`/`PartialOrd` on a fieldless enum compares by this discriminant. -/
def EntryType.idx : EntryType → Nat
  | .Added => 0
  | .Changed => 1
  | .Fixed => 2
  | .Removed => 3
  | .Deprecated => 4
  | .Security => 5
  | .Technical => 6

/-- The `Display` impl for `EntryType` from `src/entry.rs`: each variant
prints as its capitalized identifier. -/
def EntryType.toStr : EntryType → String
  | .Added => "Added"
  | .Changed => "Changed"
  | .Fixed => "Fixed"
  | .Removed => "Removed"
  | .Deprecated => "Deprecated"
  | .Security => "Security"
  | .Technical => "Technical"

/-- The `FromStr` impl for `EntryType` from `src/entry.rs`: parses the
upper-case token of a variant, anything else is an error. -/
def EntryType.fromStr : String → Except Unit EntryType
  | "ADDED" => .ok .Added
  | "CHANGED" => .ok .Changed
  | "FIXED" => .ok .Fixed
  | "REMOVED" => .ok .Removed
  | "DEPRECATED" => .ok .Deprecated
  | "SECURITY" => .ok .Security
  | "TECHNICAL" => .ok .Technical
  | _ => .error ()

/-- The `Entry` struct from `src/entry.rs`: one recorded change. The Rust
field `r#type` is named `type` here; `#[serde(rename_all = "camelCase")]`
only affects the JSON key names, handled in the serializer below. -/
structure Entry where
  author : String
  title : String
  description : Option String
  type : EntryType
  is_breaking_change : Bool
  issue : String
deriving DecidableEq, Repr

/-- `Entry::to_markdown` from `src/entry.rs`: one list item with an optional
breaking-change marker and an optional indented description line. -/
def Entry.to_markdown (e : Entry) : String :=
  let marker := if e.is_breaking_change then "**BREAKING CHANGE** " else ""
  let description :=
    match e.description with
    | some d => "\n  " ++ d
    | none => ""
  "- [" ++ marker ++ e.title ++ "](" ++ e.issue ++ ")" ++ description ++ "\n"

/-- Lexicographic comparison of character lists by Unicode scalar value;
this is the order `String::cmp` induces on Rust strings (byte order on
valid UTF-8 agrees with scalar-value order). -/
def charsCompare : List Char → List Char → Ordering
  | [], [] => .eq
  | [], _ :: _ => .lt
  | _ :: _, [] => .gt
  | a :: as, b :: bs => (compare a b).then (charsCompare as bs)

/-- Comparison on strings as used by `String::cmp` in the source. -/
def strCompare (a b : String) : Ordering :=
  charsCompare a.toList b.toList

/-- Comparison on booleans as used by `bool::cmp` (`false < true`). -/
def boolCompare : Bool → Bool → Ordering
  | false, false => .eq
  | false, true => .lt
  | true, false => .gt
  | true, true => .eq

/-- The `Ord` impl for `Entry` from `src/entry.rs`:
`other.is_breaking_change.cmp(&self.is_breaking_change)
  .then_with(|| self.title.cmp(&other.title))`. -/
def Entry.cmp (a b : Entry) : Ordering :=
  (boolCompare b.is_breaking_change a.is_breaking_change).then
    (strCompare a.title b.title)

/-- The `EntryBuilder` struct from `src/entry.rs`, with the field defaults
produced by `#[derive(Default)]`: empty strings, `None`s, and the
`EntryType` default. -/
structure EntryBuilder where
  author : String
  title : String
  description : Option String
  type : EntryType
  is_breaking_change : Option Bool
  issue : String

/-- `EntryBuilder::default()`: every `String` empty, every `Option` `None`,
and `type` the `EntryType` default (`Changed`). -/
def EntryBuilder.default : EntryBuilder :=
  { author := ""
    title := ""
    description := none
    type := EntryType.default
    is_breaking_change := none
    issue := "" }

/-- `Builder::author` for `EntryBuilder` (named `setAuthor` because the
field projection already takes the source name). -/
def EntryBuilder.setAuthor (b : EntryBuilder) (author : String) : EntryBuilder :=
  { b with author := author }

/-- `Builder::title` for `EntryBuilder`. -/
def EntryBuilder.setTitle (b : EntryBuilder) (title : String) : EntryBuilder :=
  { b with title := title }

/-- `Builder::description` for `EntryBuilder`. -/
def EntryBuilder.setDescription (b : EntryBuilder) (description : Option String) :
    EntryBuilder :=
  { b with description := description }

/-- `Builder::r#type` for `EntryBuilder`. -/
def EntryBuilder.setType (b : EntryBuilder) (entry_type : EntryType) : EntryBuilder :=
  { b with type := entry_type }

/-- `Builder::is_breaking_change` for `EntryBuilder`. -/
def EntryBuilder.setIsBreakingChange (b : EntryBuilder) (v : Option Bool) : EntryBuilder :=
  { b with is_breaking_change := v }

/-- `Builder::issue` for `EntryBuilder`. -/
def EntryBuilder.setIssue (b : EntryBuilder) (issue : String) : EntryBuilder :=
  { b with issue := issue }

/-- `Builder::build` for `EntryBuilder` from `src/entry.rs` (lines 231-240):
moves every field into the `Entry`, defaulting `is_breaking_change` to
`false`; its return type is `Entry`, not `Result`, and it performs no
validation of any field. -/
def EntryBuilder.build (b : EntryBuilder) : Entry :=
  { author := b.author
    title := b.title
    description := b.description
    type := b.type
    is_breaking_change := b.is_breaking_change.getD false
    issue := b.issue }

/-! ## JSON values, the pretty renderer, and the parser

`Entry::to_json` serializes with `serde_json::Serializer` over a
`PrettyFormatter::with_indent(b"    ")`; `Entry::from_json` is
`serde_json::from_str`. Both are modeled through an explicit JSON value
type: the derived `Serialize`/`Deserialize` impls become `Entry.encode` /
`decodeEntry`, and the text layer becomes `renderValue` (the pretty
formatter) and `parseValue` (the parser, integer-only numbers, with
`serde_json`'s nesting limit of 128). -/

/-- A JSON value. Numbers are integers only: entry documents never contain
numbers, and the parser reports an error on a fraction or exponent. -/
inductive Json where
  | null
  | bool (b : Bool)
  | num (n : Int)
  | str (s : String)
  | arr (items : List Json)
  | obj (fields : List (String × Json))

/-- Lower-case hex digit for `n < 16`, as `serde_json` emits in `\u00XX`
escapes. -/
def hexDigit (n : Nat) : Char :=
  if n < 10 then Char.ofNat ('0'.toNat + n) else Char.ofNat ('a'.toNat + (n - 10))

/-- `serde_json`'s escaping of one string character: `"` and `\` get a
backslash, the control characters with short escapes use them, any other
control character becomes `\u00XX`, and everything else is itself. -/
def escChar (c : Char) : List Char :=
  if c = '"' then ['\\', '"']
  else if c = '\\' then ['\\', '\\']
  else if c = Char.ofNat 8 then ['\\', 'b']
  else if c = '\t' then ['\\', 't']
  else if c = '\n' then ['\\', 'n']
  else if c = Char.ofNat 12 then ['\\', 'f']
  else if c = '\r' then ['\\', 'r']
  else if c.toNat < 32 then
    ['\\', 'u', '0', '0', hexDigit (c.toNat / 16), hexDigit (c.toNat % 16)]
  else [c]

/-- JSON escaping of a whole string body (no surrounding quotes). -/
def escStr : List Char → List Char
  | [] => []
  | c :: cs => escChar c ++ escStr cs

/-- A JSON string literal: quotes around the escaped body. -/
def quoteStr (s : String) : List Char :=
  '"' :: (escStr s.toList ++ ['"'])

/-- Decimal digits of `n`, most significant first, prepended to `acc`. -/
def natChars (n : Nat) (acc : List Char) : List Char :=
  let d := Char.ofNat ('0'.toNat + n % 10)
  if n < 10 then d :: acc else natChars (n / 10) (d :: acc)
termination_by n
decreasing_by omega

/-- The characters of an integer literal. -/
def intChars (i : Int) : List Char :=
  if i < 0 then '-' :: natChars i.natAbs [] else natChars i.natAbs []

/-- `n` four-space indentation units, as `PrettyFormatter::with_indent(b"    ")`
writes at nesting level `n`. -/
def indentChars : Nat → List Char
  | 0 => []
  | n + 1 => ' ' :: ' ' :: ' ' :: ' ' :: indentChars n

mutual
/-- The output of `serde_json`'s `PrettyFormatter` for a value at nesting
level `lvl`: scalars are compact; a non-empty array or object opens its
bracket, puts each element on its own line one level deeper, and closes the
bracket on a fresh line at the current level; empty containers are `[]`
and `\x7b\x7d`. -/
def renderValue (lvl : Nat) : Json → List Char
  | .null => 'n' :: 'u' :: 'l' :: 'l' :: []
  | .bool true => 't' :: 'r' :: 'u' :: 'e' :: []
  | .bool false => 'f' :: 'a' :: 'l' :: 's' :: 'e' :: []
  | .num n => intChars n
  | .str s => quoteStr s
  | .arr [] => ['[', ']']
  | .arr (x :: xs) =>
    '[' :: '\n' :: (renderItems (lvl + 1) (x :: xs) ++ '\n' :: (indentChars lvl ++ [']']))
  | .obj [] => ['\x7b', '\x7d']
  | .obj (f :: fs) =>
    '\x7b' :: '\n' :: (renderFields (lvl + 1) (f :: fs) ++ '\n' :: (indentChars lvl ++ ['\x7d']))

/-- The lines of a non-empty array body, separated by `,\n`. -/
def renderItems (lvl : Nat) : List Json → List Char
  | [] => []
  | [x] => indentChars lvl ++ renderValue lvl x
  | x :: y :: ys =>
    indentChars lvl ++ renderValue lvl x ++ ',' :: '\n' :: renderItems lvl (y :: ys)

/-- The lines of a non-empty object body: `"key": value`, separated by `,\n`. -/
def renderFields (lvl : Nat) : List (String × Json) → List Char
  | [] => []
  | [(k, v)] => indentChars lvl ++ quoteStr k ++ ':' :: ' ' :: renderValue lvl v
  | (k, v) :: g :: gs =>
    indentChars lvl ++ quoteStr k ++ ':' :: ' ' :: renderValue lvl v ++
      ',' :: '\n' :: renderFields lvl (g :: gs)
end

/-- The derived `Serialize` impl for `Entry` (with
`#[serde(rename_all = "camelCase")]`): an object with the six fields in
declaration order, the `Option` description as `null` or a string, and the
`EntryType` as its variant-name string. -/
def Entry.encode (e : Entry) : Json :=
  .obj
    [("author", .str e.author),
     ("title", .str e.title),
     ("description", match e.description with | none => .null | some d => .str d),
     ("type", .str e.type.toStr),
     ("isBreakingChange", .bool e.is_breaking_change),
     ("issue", .str e.issue)]

/-- `Entry::to_json` from `src/entry.rs` (lines 184-192): serialize with the
four-space `PrettyFormatter` into a buffer and return it as a string. The
source wraps the result in `Result`, but neither writing to the in-memory
buffer nor the final UTF-8 conversion can fail, so the model is total. -/
def Entry.to_json (e : Entry) : String :=
  String.mk (renderValue 0 e.encode)

/-- Characters `serde_json` treats as insignificant whitespace. -/
def isJWs (c : Char) : Bool :=
  c = ' ' || c = '\n' || c = '\t' || c = '\r'

/-- Drop leading JSON whitespace. -/
def dropWs : List Char → List Char
  | [] => []
  | c :: cs => if isJWs c then dropWs cs else c :: cs

def isDigitCh (c : Char) : Bool := '0' ≤ c && c ≤ '9'

/-- Value of a hex digit character, if it is one. -/
def hexVal (c : Char) : Option Nat :=
  if c.toNat < 48 then none
  else if c.toNat ≤ 57 then some (c.toNat - 48)
  else if c.toNat < 65 then none
  else if c.toNat ≤ 70 then some (c.toNat - 55)
  else if c.toNat < 97 then none
  else if c.toNat ≤ 102 then some (c.toNat - 87)
  else none

/-- Value of four hex digit characters. -/
def hex4 (a b c d : Char) : Option Nat := do
  let va ← hexVal a
  let vb ← hexVal b
  let vc ← hexVal c
  let vd ← hexVal d
  some (((va * 16 + vb) * 16 + vc) * 16 + vd)

mutual
/-- Body of a JSON string after the opening quote, accumulating decoded
characters in reverse, the way `serde_json` reads string contents: a
quote ends the string, a backslash starts an escape, anything else is
itself. -/
def parseStrBody (acc : List Char) : List Char → Except String (String × List Char)
  | [] => .error "unterminated string"
  | c :: rest =>
    if c = '"' then .ok (String.mk acc.reverse, rest)
    else if c = '\\' then parseEsc acc rest
    else parseStrBody (c :: acc) rest
termination_by structural l => l

/-- The character after a backslash: `u` starts a hex escape, the other
eight single-character escapes decode directly, anything else is an
error. -/
def parseEsc (acc : List Char) : List Char → Except String (String × List Char)
  | [] => .error "unterminated string"
  | e :: rest2 =>
    if e = 'u' then parseHexEsc acc rest2
    else if e = '"' then parseStrBody ('"' :: acc) rest2
    else if e = '\\' then parseStrBody ('\\' :: acc) rest2
    else if e = '/' then parseStrBody ('/' :: acc) rest2
    else if e = 'b' then parseStrBody (Char.ofNat 8 :: acc) rest2
    else if e = 'f' then parseStrBody (Char.ofNat 12 :: acc) rest2
    else if e = 'n' then parseStrBody ('\n' :: acc) rest2
    else if e = 'r' then parseStrBody ('\r' :: acc) rest2
    else if e = 't' then parseStrBody ('\t' :: acc) rest2
    else .error "invalid escape"
termination_by structural l => l

/-- Four hex digits after `\u`: a non-surrogate code point decodes
directly; a high surrogate must be followed by a second escape. -/
def parseHexEsc (acc : List Char) : List Char → Except String (String × List Char)
  | a :: b :: c3 :: d :: rest3 =>
    match hex4 a b c3 d with
    | none => .error "invalid hex escape"
    | some n =>
      if n < 0xD800 ∨ (0xDFFF < n ∧ n < 0x110000) then
        parseStrBody (Char.ofNat n :: acc) rest3
      else parseSurrogate acc n rest3
  | _ => .error "invalid hex escape"
termination_by structural l => l

/-- The low half of a surrogate pair: `\uXXXX` with a low surrogate value,
combined with the pending high half `n`; anything else is a lone
surrogate, an error. -/
def parseSurrogate (acc : List Char) (n : Nat) : List Char → Except String (String × List Char)
  | e2 :: u2 :: a2 :: b2 :: c2 :: d2 :: rest4 =>
    if e2 = '\\' ∧ u2 = 'u' then
      match hex4 a2 b2 c2 d2 with
      | none => .error "invalid hex escape"
      | some m =>
        if 0xD800 ≤ n ∧ n ≤ 0xDBFF ∧ 0xDC00 ≤ m ∧ m ≤ 0xDFFF then
          parseStrBody
            (Char.ofNat (0x10000 + (n - 0xD800) * 0x400 + (m - 0xDC00)) :: acc)
            rest4
        else .error "lone surrogate"
    else .error "lone surrogate"
  | _ => .error "lone surrogate"
termination_by structural l => l
end

/-- A run of decimal digits, longest-first split. -/
def spanDigits : List Char → List Char × List Char
  | [] => ([], [])
  | c :: cs =>
    if isDigitCh c then
      let (ds, r) := spanDigits cs
      (c :: ds, r)
    else ([], c :: cs)

/-- Numeric value of a digit run. -/
def digitsVal (ds : List Char) : Nat :=
  ds.foldl (fun acc c => acc * 10 + (c.toNat - '0'.toNat)) 0

/-- A JSON number; only integers are supported, and a following `.`, `e`,
or `E` is reported as an error (see the module comment). -/
def parseIntTok (cs : List Char) : Except String (Int × List Char) :=
  let (sgn, body) := match cs with | '-' :: afterSign => (true, afterSign) | _ => (false, cs)
  let (digs, post) := spanDigits body
  if digs.isEmpty then .error "expected digits"
  else
    match post with
    | '.' :: _ => .error "unsupported non-integer number"
    | 'e' :: _ => .error "unsupported non-integer number"
    | 'E' :: _ => .error "unsupported non-integer number"
    | _ =>
      let mag : Int := digitsVal digs
      .ok (if sgn then -mag else mag, post)

mutual
/-- `serde_json`'s value parser. `fuel` only bounds the recursion for
termination (callers pass at least the input length plus one, which is
always enough since every recursive call first consumes a character);
`lim` models the library's nesting `recursion_limit` of 128. -/
def parseValue (fuel : Nat) (lim : Nat) (cs : List Char) :
    Except String (Json × List Char) :=
  match fuel with
  | 0 => .error "fuel exhausted"
  | fuel + 1 =>
    match dropWs cs with
    | 'n' :: 'u' :: 'l' :: 'l' :: rNull => .ok (.null, rNull)
    | 't' :: 'r' :: 'u' :: 'e' :: rTrue => .ok (.bool true, rTrue)
    | 'f' :: 'a' :: 'l' :: 's' :: 'e' :: rFalse => .ok (.bool false, rFalse)
    | '"' :: rStr =>
      match parseStrBody [] rStr with
      | .ok (s, r') => .ok (.str s, r')
      | .error msg => .error msg
    | '[' :: r =>
      match lim with
      | 0 => .error "recursion limit exceeded"
      | lim + 1 =>
        match dropWs r with
        | ']' :: r' => .ok (.arr [], r')
        | other =>
          match parseItems fuel lim other with
          | .ok (xs, r') => .ok (.arr xs, r')
          | .error msg => .error msg
    | '\x7b' :: r =>
      match lim with
      | 0 => .error "recursion limit exceeded"
      | lim + 1 =>
        match dropWs r with
        | '\x7d' :: r' => .ok (.obj [], r')
        | other =>
          match parseFields fuel lim other with
          | .ok (fs, r') => .ok (.obj fs, r')
          | .error msg => .error msg
    | c :: r =>
      if c = '-' || isDigitCh c then
        match parseIntTok (c :: r) with
        | .ok (n, r') => .ok (.num n, r')
        | .error msg => .error msg
      else .error "unexpected character"
    | [] => .error "unexpected end of input"

/-- One or more comma-separated array elements, ending at `]`. -/
def parseItems (fuel : Nat) (lim : Nat) (cs : List Char) :
    Except String (List Json × List Char) :=
  match fuel with
  | 0 => .error "fuel exhausted"
  | fuel + 1 =>
    match parseValue fuel lim cs with
    | .error msg => .error msg
    | .ok (v, r) =>
      match dropWs r with
      | ',' :: r' =>
        match parseItems fuel lim r' with
        | .ok (vs, r'') => .ok (v :: vs, r'')
        | .error msg => .error msg
      | ']' :: r' => .ok ([v], r')
      | _ => .error "expected comma or closing bracket"

/-- One or more comma-separated object members, ending at the closing
brace. -/
def parseFields (fuel : Nat) (lim : Nat) (cs : List Char) :
    Except String (List (String × Json) × List Char) :=
  match fuel with
  | 0 => .error "fuel exhausted"
  | fuel + 1 =>
    match dropWs cs with
    | '"' :: r =>
      match parseStrBody [] r with
      | .error msg => .error msg
      | .ok (k, r1) =>
        match dropWs r1 with
        | ':' :: r2 =>
          match parseValue fuel lim r2 with
          | .error msg => .error msg
          | .ok (v, r3) =>
            match dropWs r3 with
            | ',' :: r4 =>
              match parseFields fuel lim r4 with
              | .ok (fs, r5) => .ok ((k, v) :: fs, r5)
              | .error msg => .error msg
            | '\x7d' :: r4 => .ok ([(k, v)], r4)
            | _ => .error "expected comma or closing brace"
        | _ => .error "expected colon"
    | _ => .error "expected string key"
end

/-- A whole JSON document: one value, then only whitespace, as
`serde_json::from_str` demands. -/
def parseDoc (s : String) : Except String Json :=
  match parseValue (s.toList.length + 1) 128 s.toList with
  | .error msg => .error msg
  | .ok (v, r) =>
    match dropWs r with
    | [] => .ok v
    | _ => .error "trailing characters"

/-- Field accumulator for the derived `Deserialize` impl of `Entry`: each
field is `none` until its key has been seen (`description` holds the seen
value, itself optional). -/
structure EntryAcc where
  author : Option String := none
  title : Option String := none
  description : Option (Option String) := none
  type : Option EntryType := none
  is_breaking_change : Option Bool := none
  issue : Option String := none

/-- Decode one JSON value as a `String`, as serde does for a `String`
field. -/
def decodeString : Json → Except String String
  | .str s => .ok s
  | _ => .error "invalid type: expected a string"

/-- Decode one JSON value as an `Option<String>` field: `null` is `None`. -/
def decodeOptString : Json → Except String (Option String)
  | .null => .ok none
  | .str s => .ok (some s)
  | _ => .error "invalid type: expected a string or null"

/-- Decode one JSON value as a `bool`. -/
def decodeBool : Json → Except String Bool
  | .bool b => .ok b
  | _ => .error "invalid type: expected a boolean"

/-- The derived `Deserialize` impl for `EntryType`: a string equal to a
variant identifier; anything else is an unknown-variant error. -/
def decodeEntryType : Json → Except String EntryType
  | .str "Added" => .ok .Added
  | .str "Changed" => .ok .Changed
  | .str "Fixed" => .ok .Fixed
  | .str "Removed" => .ok .Removed
  | .str "Deprecated" => .ok .Deprecated
  | .str "Security" => .ok .Security
  | .str "Technical" => .ok .Technical
  | _ => .error "unknown variant"

/-- One member step of the derived `Deserialize` impl for `Entry`: a known
key decodes its value (a repeated key is a duplicate-field error), an
unknown key is ignored. -/
def decodeEntryField (acc : EntryAcc) (k : String) (v : Json) :
    Except String EntryAcc :=
  if k = "author" then
    match acc.author with
    | some _ => .error "duplicate field"
    | none => do
      let s ← decodeString v
      .ok { acc with author := some s }
  else if k = "title" then
    match acc.title with
    | some _ => .error "duplicate field"
    | none => do
      let s ← decodeString v
      .ok { acc with title := some s }
  else if k = "description" then
    match acc.description with
    | some _ => .error "duplicate field"
    | none => do
      let s ← decodeOptString v
      .ok { acc with description := some s }
  else if k = "type" then
    match acc.type with
    | some _ => .error "duplicate field"
    | none => do
      let t ← decodeEntryType v
      .ok { acc with type := some t }
  else if k = "isBreakingChange" then
    match acc.is_breaking_change with
    | some _ => .error "duplicate field"
    | none => do
      let b ← decodeBool v
      .ok { acc with is_breaking_change := some b }
  else if k = "issue" then
    match acc.issue with
    | some _ => .error "duplicate field"
    | none => do
      let s ← decodeString v
      .ok { acc with issue := some s }
  else .ok acc

/-- Fold `decodeEntryField` over the members of the object. -/
def decodeEntryFields (acc : EntryAcc) : List (String × Json) → Except String EntryAcc
  | [] => .ok acc
  | (k, v) :: fs => do
    let acc' ← decodeEntryField acc k v
    decodeEntryFields acc' fs

/-- The derived `Deserialize` impl for `Entry`: an object whose members fill
the fields; a missing required field is an error, a missing `description`
(an `Option` field) is `None`. -/
def decodeEntry : Json → Except String Entry
  | .obj fs => do
    let acc ← decodeEntryFields {} fs
    match acc.author, acc.title, acc.type, acc.is_breaking_change, acc.issue with
    | some author, some title, some type, some ibc, some issue =>
      .ok
        { author := author
          title := title
          description := acc.description.getD none
          type := type
          is_breaking_change := ibc
          issue := issue }
    | _, _, _, _, _ => .error "missing field"
  | _ => .error "invalid type: expected an object"

/-- `Entry::from_json` from `src/entry.rs` (lines 194-196), i.e.
`serde_json::from_str::<Entry>`. -/
def Entry.from_json (s : String) : Except String Entry := do
  let v ← parseDoc s
  decodeEntry v

/-! ## The aggregation engine (`src/merge.rs`) -/

/-- A calendar date, standing in for `chrono::DateTime<Local>`; only the
`%Y-%m-%d` rendering of the date is observable in the merge path. -/
structure SDate where
  year : Nat
  month : Nat
  day : Nat
deriving DecidableEq, Repr

/-- Decimal digits of `n`, zero-padded on the left to width 2 (`%m`/`%d`). -/
def pad2 (n : Nat) : String :=
  if n < 10 then "0" ++ toString n else toString n

/-- Decimal digits of `n`, zero-padded on the left to width 4 (`%Y`). -/
def pad4 (n : Nat) : String :=
  if n < 10 then "000" ++ toString n
  else if n < 100 then "00" ++ toString n
  else if n < 1000 then "0" ++ toString n
  else toString n

/-- The `format("%Y-%m-%d")` rendering of a date. -/
def formatDate (d : SDate) : String :=
  pad4 d.year ++ "-" ++ pad2 d.month ++ "-" ++ pad2 d.day

/-- Insert an entry into a list sorted by `Entry.cmp`, after any entries
that compare equal to it. -/
def insertEntry (e : Entry) : List Entry → List Entry
  | [] => [e]
  | x :: xs => if Entry.cmp e x = .lt then e :: x :: xs else x :: insertEntry e xs

/-- `Vec::sort` on a group of entries: a stable ascending sort by the `Ord`
impl of `Entry`. `Vec::sort`'s contract (stable sort by `cmp`) determines
its output uniquely, so this insertion sort is extensionally the source's
sort. -/
def sortEntries (l : List Entry) : List Entry :=
  l.foldr insertEntry []

/-- Insert an entry into the `BTreeMap<&EntryType, Vec<&Entry>>` of
`entries_to_string`: the map iterates in ascending key order (the derived
`Ord` on `EntryType`, i.e. declaration order), a vacant key gets a
singleton vector, an occupied key pushes at the end. -/
def insertGrouped (m : List (EntryType × List Entry)) (e : Entry) :
    List (EntryType × List Entry) :=
  match m with
  | [] => [(e.type, [e])]
  | (t, es) :: rest =>
    if e.type.idx < t.idx then (e.type, [e]) :: (t, es) :: rest
    else if e.type = t then (t, es ++ [e]) :: rest
    else (t, es) :: insertGrouped rest e

/-- The grouping loop of `entries_to_string`: fold every entry into the
map. -/
def groupEntries (entries : List Entry) : List (EntryType × List Entry) :=
  entries.foldl insertGrouped []

/-- One pass of the rendering loop of `entries_to_string`: a blank line, a
`### <category>` heading, a blank line, then the sorted group's markdown
lines. -/
def sectionFor (t : EntryType) (es : List Entry) : String :=
  "\n### " ++ t.toStr ++ "\n\n" ++ String.join ((sortEntries es).map Entry.to_markdown)

/-- Drop leading Rust-whitespace characters. -/
def trimLeftChars : List Char → List Char
  | [] => []
  | c :: cs => if c.isWhitespace then trimLeftChars cs else c :: cs

/-- `str::trim`: remove whitespace from both ends. (Rust trims the full
Unicode `White_Space` class; the release notes only ever start and end
with `\n`, which both sides treat alike.) -/
def strTrim (s : String) : String :=
  String.mk ((trimLeftChars (trimLeftChars s.toList).reverse).reverse)

/-- `entries_to_string` from `src/merge.rs` (lines 28-69): empty input
renders the empty string; otherwise group by category into the ordered
map, emit the `## [version] - date` header (the date defaulting to `now`),
render each group sorted, and glue as `header ++ "\n" ++ trimmed ++ "\n"`.
The source wraps the result in `Result` but no path returns an error, so
the model is total; the source's `println!` has no observable effect
here. -/
def entries_to_string (entries : List Entry) (version : String)
    (date : Option SDate) (now : SDate) : String :=
  if entries.isEmpty then ""
  else
    let header := "## [" ++ version ++ "] - " ++ formatDate (date.getD now) ++ "\n"
    let notes := String.join ((groupEntries entries).map fun g => sectionFor g.1 g.2)
    header ++ "\n" ++ strTrim notes ++ "\n"

/-! ## The filesystem layer (`src/fs_manager.rs`) -/

/-- The `io::Error` outcomes the modeled operations distinguish. -/
inductive FsErr where
  | notFound
  | alreadyExists
  | ioError
deriving DecidableEq, Repr

/-- The `Box<dyn Error>` of `merge_entries`, which wraps either an
`io::Error` or a `serde_json::Error`. -/
inductive MergeErr where
  | io (e : FsErr)
  | parse (msg : String)
deriving DecidableEq, Repr

/-- Instrumentation: the observable filesystem accesses. `docRead`,
`docWrite`, `docCreate` touch the changelog document; `entryRead` and
`entryRemoved` touch one pending entry file. -/
inductive FsEvent where
  | entryRead (name : String)
  | entryRemoved (name : String)
  | docRead
  | docWrite
  | docCreate
deriving DecidableEq, Repr

/-- The filesystem as the program observes it: whether the
`unreleased_changelogs` store directory exists, its files (name with
extension, content, in directory order), the changelog document at the
resolved target path (`none` when the file does not exist), an oracle for
whether document writes succeed, and the access log. -/
structure FsState where
  storeDirExists : Bool
  entryFiles : List (String × String)
  changelog : Option String
  writeOk : Bool
  events : List FsEvent
deriving DecidableEq, Repr

/-- Whether `Path::extension()` of the file name is `json`, i.e. the name
ends in `.json`. -/
def isJsonFile (name : String) : Bool :=
  List.isSuffixOf ".json".toList name.toList

/-- The `BASE_CHANGELOG_CONTENT` template of `src/fs_manager.rs`. -/
def baseChangelogContent : String :=
  "# Changelog\n\nAll notable changes to this project will be documented in this file.\n\nThe format is based on [Keep a Changelog](https://keepachangelog.com/en/1.1.0/),\nand this project adheres to [Semantic Versioning](https://semver.org/spec/v2.0.0.html).\n\n## [Unreleased]\n"

/-- The anchor line `write_changelog` splices after, with its newline. -/
def unreleasedAnchor : String :=
  "## [Unreleased]\n"

/-- Left-to-right, non-overlapping replacement of `pat` by `rep`, the
semantics of `str::replace` for a non-empty pattern (the only pattern the
source uses is the anchor line). The fuel starts at the input length,
which is enough because every step consumes at least one character. -/
def replaceGo (pat rep : List Char) : Nat → List Char → List Char
  | _, [] => []
  | 0, l => l
  | n + 1, c :: rest =>
    if pat ≠ [] ∧ pat.isPrefixOf (c :: rest) then
      rep ++ replaceGo pat rep n (List.drop pat.length (c :: rest))
    else c :: replaceGo pat rep n rest

/-- `str::replace` (non-empty pattern). -/
def replaceAll (s pat rep : String) : String :=
  String.mk (replaceGo pat.toList rep.toList s.toList.length s.toList)

/-- Whether `pat` occurs as a contiguous run inside `l`. -/
def occursIn (pat : List Char) : List Char → Bool
  | [] => pat.isEmpty
  | c :: rest => pat.isPrefixOf (c :: rest) || occursIn pat rest

/-- `read_entries` from `src/fs_manager.rs` (lines 39-53): listing the
store directory fails when it does not exist; otherwise the contents of
its `.json` files, in directory order. -/
def read_entries (s : FsState) : Except FsErr (List String) × FsState :=
  if s.storeDirExists then
    (.ok ((s.entryFiles.filter fun f => isJsonFile f.1).map (·.2)),
     { s with
        events := s.events ++
          (s.entryFiles.filter fun f => isJsonFile f.1).map
            fun f => FsEvent.entryRead f.1 })
  else (.error .notFound, s)

/-- `clear_entries` from `src/fs_manager.rs` (lines 55-67): listing fails
when the directory is missing; otherwise every `.json` file is removed. -/
def clear_entries (s : FsState) : Except FsErr Unit × FsState :=
  if s.storeDirExists then
    (.ok (),
     { s with
        entryFiles := s.entryFiles.filter fun f => !isJsonFile f.1
        events := s.events ++
          (s.entryFiles.filter fun f => isJsonFile f.1).map
            fun f => FsEvent.entryRemoved f.1 })
  else (.error .notFound, s)

/-- `write_entry` from `src/fs_manager.rs` (lines 22-29):
`check_folder_existence` creates the store directory if absent, then
`File::create_new("<filename>.json")` fails with `AlreadyExists` when the
file is already present (without touching it) and otherwise writes the
buffer to the fresh file. -/
def write_entry (filename buffer : String) (s : FsState) :
    Except FsErr Unit × FsState :=
  if (s.entryFiles.lookup (filename ++ ".json")).isSome then
    (.error .alreadyExists, { s with storeDirExists := true })
  else
    (.ok (),
     { s with
        storeDirExists := true
        entryFiles := s.entryFiles ++ [(filename ++ ".json", buffer)] })

/-- The read-replace-write tail of `write_changelog`, after the existence
check: an empty rendered section returns at once without opening the
document; otherwise the document is read, every occurrence of the anchor
line gets the new section spliced after it, and the document is written
back (the write subject to the `writeOk` oracle). -/
def writeChangelogBody (content : String) (s : FsState) :
    Except FsErr Unit × FsState :=
  if content = "" then (.ok (), s)
  else
    match s.changelog with
    | none => (.error .notFound, s)
    | some doc =>
      if s.writeOk then
        (.ok (),
         { s with
            changelog := some
              (replaceAll doc unreleasedAnchor
                (unreleasedAnchor ++ "\n" ++ content ++ "\n"))
            events := s.events ++ [FsEvent.docRead, FsEvent.docWrite] })
      else (.error .ioError, { s with events := s.events ++ [FsEvent.docRead] })

/-- `write_changelog` from `src/fs_manager.rs` (lines 69-95): resolve the
target path (the state holds the document at the resolved path, so the
`_changelogPath` argument has no further observable effect), create the
document from the base template when absent, then run the
read-replace-write body. -/
def write_changelog (content : String) (_changelogPath : Option String)
    (s : FsState) : Except FsErr Unit × FsState :=
  match s.changelog with
  | some _ => writeChangelogBody content s
  | none =>
    if s.writeOk then
      writeChangelogBody content
        { s with
            changelog := some baseChangelogContent
            events := s.events ++ [FsEvent.docCreate] }
    else (.error .ioError, s)

/-- The `read_entries` helper of `src/merge.rs` (lines 21-26), restricted
to its deserialization part: `Entry::from_json` over each raw document,
stopping at the first failure, as `collect::<Result<Vec<_>, _>>` does. -/
def parseEntries : List String → Except String (List Entry)
  | [] => .ok []
  | s :: ss => do
    let e ← Entry.from_json s
    let es ← parseEntries ss
    .ok (e :: es)

/-- `merge_entries` from `src/merge.rs` (lines 10-19): read all pending
entries, deserialize them, render the release section, splice it into the
changelog document, and only then clear the store; each `?` aborts with
the step's error. -/
def merge_entries (version : String) (date : Option SDate)
    (changelogPath : Option String) (now : SDate) (s : FsState) :
    Except MergeErr Unit × FsState :=
  match read_entries s with
  | (.error e, s1) => (.error (.io e), s1)
  | (.ok jsons, s1) =>
    match parseEntries jsons with
    | .error msg => (.error (.parse msg), s1)
    | .ok entries =>
      match write_changelog (entries_to_string entries version date now) changelogPath s1 with
      | (.error e, s2) => (.error (.io e), s2)
      | (.ok _, s2) =>
        match clear_entries s2 with
        | (.error e, s3) => (.error (.io e), s3)
        | (.ok _, s3) => (.ok (), s3)

/-! ## Claims about the builder (C1, C10) -/

/-- C1 (counterexample): `Builder::build` does not fail when `author`,
`title`, and `issue` are all absent/empty — building from the default
builder, whose three required strings are empty, returns an `Entry` (with
those empty fields) rather than any `MissingField` error; `build`'s
return type is `Entry`, not a fallible result. -/
theorem build_of_default_builder_returns_empty_entry :
    EntryBuilder.default.build =
      { author := ""
        title := ""
        description := none
        type := EntryType.Changed
        is_breaking_change := false
        issue := ""
        : Entry } := rfl

/-- C1 (amended): `Builder::build` is total and performs no required-field
validation: for every builder state, also one whose `author`, `title`, or
`issue` is empty, it returns the `Entry` assembled from the builder's
fields, with `is_breaking_change` defaulting to `false`. -/
theorem build_total_no_validation (b : EntryBuilder) :
    b.build.author = b.author ∧
    b.build.title = b.title ∧
    b.build.issue = b.issue ∧
    b.build.description = b.description ∧
    b.build.type = b.type ∧
    b.build.is_breaking_change = b.is_breaking_change.getD false :=
  ⟨rfl, rfl, rfl, rfl, rfl, rfl⟩

/-- C10: on a builder on which `r#type` is never set, `build()` produces an
entry whose category is `Changed` — the variant carrying the enumeration's
`#[default]` attribute — and not `Added`, whichever other setters ran. -/
theorem build_without_type_defaults_to_changed
    (a t : String) (d : Option String) (bk : Option Bool) (i : String) :
    (((((EntryBuilder.default.setAuthor a).setTitle t).setDescription d).setIsBreakingChange
          bk).setIssue i).build.type = EntryType.Changed ∧
    EntryType.default = EntryType.Changed ∧
    EntryType.Changed ≠ EntryType.Added :=
  ⟨rfl, rfl, by simp⟩

/-! ## The entry ordering (C6) -/

/-- C6: the `Ord` impl of `Entry` (used on every rendered category group)
puts a breaking change before a non-breaking one regardless of the titles,
and on equal breaking-change status compares exactly by lexical order of
the titles. -/
theorem entry_cmp_breaking_first_then_title (a b : Entry) :
    (a.is_breaking_change = true → b.is_breaking_change = false →
      Entry.cmp a b = Ordering.lt) ∧
    (a.is_breaking_change = b.is_breaking_change →
      Entry.cmp a b = strCompare a.title b.title) := by
  constructor
  · intro ha hb
    simp [Entry.cmp, ha, hb, boolCompare, Ordering.then]
  · intro h
    cases hb : b.is_breaking_change <;>
      simp [Entry.cmp, h, hb, boolCompare, Ordering.then]

/-- Witness for C6 at concrete entries: a breaking change beats a
lexically earlier non-breaking title, and equal-status entries compare by
title. -/
theorem entry_cmp_breaking_first_then_title_witness :
    Entry.cmp
        { author := "a", title := "zz", description := none, type := .Added,
          is_breaking_change := true, issue := "1" }
        { author := "a", title := "aa", description := none, type := .Added,
          is_breaking_change := false, issue := "2" } = Ordering.lt ∧
    Entry.cmp
        { author := "a", title := "aa", description := none, type := .Added,
          is_breaking_change := false, issue := "1" }
        { author := "a", title := "ab", description := none, type := .Added,
          is_breaking_change := false, issue := "2" } = strCompare "aa" "ab" :=
  ⟨(entry_cmp_breaking_first_then_title _ _).1 rfl rfl,
   (entry_cmp_breaking_first_then_title _ _).2 rfl⟩

/-! ## The entry store collision (C7) -/

/-- C7: when an entry file for `name` already exists with content `c`, a
second `write_entry` under `name` fails with `AlreadyExists`, the existing
file still holds `c`, and the store's files are unchanged. -/
theorem write_entry_existing_fails_already_exists
    (s : FsState) (name buf c : String)
    (h : s.entryFiles.lookup (name ++ ".json") = some c) :
    (write_entry name buf s).1 = .error .alreadyExists ∧
    (write_entry name buf s).2.entryFiles.lookup (name ++ ".json") = some c ∧
    (write_entry name buf s).2.entryFiles = s.entryFiles := by
  simp [write_entry, h]

/-- Witness for C7: a concrete store holding `feature.json` with content
`"first"` rejects a second create for `feature` and keeps `"first"`. -/
theorem write_entry_existing_fails_already_exists_witness :
    (write_entry "feature" "second"
        { storeDirExists := true, entryFiles := [("feature.json", "first")],
          changelog := none, writeOk := true, events := [] }).1
      = .error .alreadyExists ∧
    (write_entry "feature" "second"
        { storeDirExists := true, entryFiles := [("feature.json", "first")],
          changelog := none, writeOk := true, events := [] }).2.entryFiles.lookup
        "feature.json" = some "first" ∧
    (write_entry "feature" "second"
        { storeDirExists := true, entryFiles := [("feature.json", "first")],
          changelog := none, writeOk := true, events := [] }).2.entryFiles
      = [("feature.json", "first")] := by
  have h := write_entry_existing_fails_already_exists
    { storeDirExists := true, entryFiles := [("feature.json", "first")],
      changelog := none, writeOk := true, events := [] } "feature" "second" "first" (by rfl)
  simpa using h

/-! ## The serialized entry format (C8) -/

/-- A JSON string literal as a `String` (quotes included). -/
def jsonStr (s : String) : String :=
  String.mk (quoteStr s)

/-- Two strings with the same character data are equal. -/
theorem strExt {s t : String} (h : s.data = t.data) : s = t := by
  cases s; cases t; simp_all

/-- The capitalized variant identifiers contain nothing the JSON escaper
touches. -/
theorem escStr_typeName (ty : EntryType) : escStr ty.toStr.data = ty.toStr.data := by
  cases ty <;> rfl

/-- Workhorse for C8: the serialized form of an entry, character by
character. -/
theorem to_json_data (e : Entry) :
    (Entry.to_json e).data =
      "\x7b\n    \"author\": \"".data ++ escStr e.author.data ++
      "\",\n    \"title\": \"".data ++ escStr e.title.data ++
      "\",\n    \"description\": ".data ++
      (match e.description with
        | none => "null".data
        | some d => '"' :: (escStr d.data ++ ['"'])) ++
      ",\n    \"type\": \"".data ++ e.type.toStr.data ++
      "\",\n    \"isBreakingChange\": ".data ++
      (if e.is_breaking_change then "true".data else "false".data) ++
      ",\n    \"issue\": \"".data ++ escStr e.issue.data ++
      "\"\n\x7d".data := by
  cases e with
  | mk a t d ty bk i =>
    cases d <;> cases bk <;>
      simp [Entry.to_json, Entry.encode, renderValue, renderFields, quoteStr,
        indentChars, escStr_typeName, escStr, escChar]

/-- C8: `to_json` pretty-prints with four-space indentation and the fixed
key order `author, title, description, type, isBreakingChange, issue`,
serializes `type` as the capitalized `EntryType` identifier, serializes an
absent description as JSON `null` (never as the empty string), and keeps
an absent description observably distinct from an empty-string one. -/
theorem to_json_pretty_format (e : Entry) :
    Entry.to_json e =
      "\x7b\n    \"author\": " ++ jsonStr e.author ++
      ",\n    \"title\": " ++ jsonStr e.title ++
      ",\n    \"description\": " ++
      (match e.description with
        | none => "null"
        | some d => jsonStr d) ++
      ",\n    \"type\": \"" ++ e.type.toStr ++
      "\",\n    \"isBreakingChange\": " ++
      (if e.is_breaking_change then "true" else "false") ++
      ",\n    \"issue\": " ++ jsonStr e.issue ++
      "\n\x7d" ∧
    Entry.to_json { e with description := none } ≠
      Entry.to_json { e with description := some "" } := by
  constructor
  · apply strExt
    rw [to_json_data]
    cases hd : e.description <;> cases hbk : e.is_breaking_change <;>
      simp [jsonStr, quoteStr]
  · intro h
    have hd : (Entry.to_json { e with description := none }).data
        = (Entry.to_json { e with description := some "" }).data := by rw [h]
    rw [to_json_data, to_json_data] at hd
    simp at hd

/-! ## Grouping in declaration order (C5) -/

/-- The `EntryType` variants in declaration order. -/
def entryTypes : List EntryType :=
  [.Added, .Changed, .Fixed, .Removed, .Deprecated, .Security, .Technical]

/-- The canonical grouping: walk a key list in order, keep the keys some
entry inhabits, and pair each with its entries in input order. -/
def canonGroups (ts : List EntryType) (l : List Entry) : List (EntryType × List Entry) :=
  match ts with
  | [] => []
  | t :: ts' =>
    if l.any fun e => e.type == t then
      (t, l.filter fun e => e.type == t) :: canonGroups ts' l
    else canonGroups ts' l

theorem mem_entryTypes (t : EntryType) : t ∈ entryTypes := by
  cases t <;> simp [entryTypes]

theorem entryTypes_sorted :
    entryTypes.Pairwise fun a b => a.idx < b.idx := by
  decide

theorem canonGroups_nil (ts : List EntryType) : canonGroups ts [] = [] := by
  induction ts with
  | nil => rfl
  | cons t ts ih => simp [canonGroups, ih]

theorem canonGroups_eq_filter_map (ts : List EntryType) (l : List Entry) :
    canonGroups ts l =
      (ts.filter fun t => l.any fun e => e.type == t).map
        fun t => (t, l.filter fun e => e.type == t) := by
  induction ts with
  | nil => rfl
  | cons t ts ih =>
    by_cases h : l.any fun e => e.type == t <;>
      simp [canonGroups, List.filter_cons, h, ih]

theorem canonGroups_keys {ts : List EntryType} {l : List Entry}
    {kv : EntryType × List Entry} (h : kv ∈ canonGroups ts l) : kv.1 ∈ ts := by
  induction ts with
  | nil => simp [canonGroups] at h
  | cons t ts ih =>
    simp only [canonGroups] at h
    split at h
    · rcases List.mem_cons.mp h with h1 | h1
      · subst h1; simp
      · exact List.mem_cons_of_mem _ (ih h1)
    · exact List.mem_cons_of_mem _ (ih h)

theorem canonGroups_append_of_fresh {ts : List EntryType} {l : List Entry}
    {e : Entry} (h : ∀ t ∈ ts, e.type ≠ t) :
    canonGroups ts (l ++ [e]) = canonGroups ts l := by
  induction ts with
  | nil => rfl
  | cons t ts ih =>
    have hne : e.type ≠ t := h t (by simp)
    have hbe : (e.type == t) = false := beq_eq_false_iff_ne.mpr hne
    have htail := ih fun t' ht' => h t' (List.mem_cons_of_mem _ ht')
    simp [canonGroups, List.any_append, List.filter_append, List.filter_cons, hbe, htail]

theorem insertGrouped_front {m : List (EntryType × List Entry)} {e : Entry}
    (h : ∀ kv ∈ m, e.type.idx < kv.1.idx) :
    insertGrouped m e = (e.type, [e]) :: m := by
  cases m with
  | nil => rfl
  | cons kv rest =>
    obtain ⟨t, es⟩ := kv
    have := h (t, es) (by simp)
    simp [insertGrouped, this]

theorem filter_nil_of_any_false {l : List Entry} {p : Entry → Bool}
    (h : l.any p = false) : l.filter p = [] := by
  apply List.filter_eq_nil_iff.mpr
  intro a ha
  simp only [List.any_eq_false] at h
  simpa using h a ha

/-- One entry folded into the canonical grouping stays canonical, as long
as the key list is strictly ordered and covers the entry's category. -/
theorem insertGrouped_canon {ts : List EntryType}
    (hs : ts.Pairwise fun a b => a.idx < b.idx) {l : List Entry} {e : Entry}
    (ht : e.type ∈ ts) :
    insertGrouped (canonGroups ts l) e = canonGroups ts (l ++ [e]) := by
  induction ts with
  | nil => simp at ht
  | cons t ts' ih =>
    obtain ⟨hhead, hs'⟩ := List.pairwise_cons.mp hs
    by_cases he : e.type = t
    · have hfresh : ∀ t' ∈ ts', e.type ≠ t' := by
        intro t' ht' heq
        have := hhead t' ht'
        rw [he] at heq
        rw [heq] at this
        omega
      have htail := canonGroups_append_of_fresh (l := l) hfresh
      have hbe : (e.type == t) = true := beq_iff_eq.mpr he
      by_cases hpres : (l.any fun x => x.type == t) = true
      · simp [canonGroups, hpres, List.any_append, List.filter_append,
          List.filter_cons, hbe, insertGrouped, he, htail]
      · have hfront : insertGrouped (canonGroups ts' l) e = (e.type, [e]) :: canonGroups ts' l :=
          insertGrouped_front fun kv hkv => by
            have := hhead kv.1 (canonGroups_keys hkv)
            rw [he]; exact this
        have hnil := filter_nil_of_any_false (p := fun x => x.type == t)
          (by simpa using hpres)
        simp [canonGroups, hpres, List.any_append, List.filter_append,
          List.filter_cons, hbe, hfront, he, htail, hnil]
    · have ht' : e.type ∈ ts' := by
        rcases List.mem_cons.mp ht with h1 | h1
        · exact absurd h1 he
        · exact h1
      have hgt : t.idx < e.type.idx := hhead _ ht'
      have hbe : (e.type == t) = false := beq_eq_false_iff_ne.mpr he
      by_cases hpres : (l.any fun x => x.type == t) = true
      · simp [canonGroups, hpres, List.any_append, List.filter_append,
          List.filter_cons, hbe, insertGrouped, he, ih hs' ht',
          Nat.lt_asymm hgt]
      · simp [canonGroups, hpres, List.any_append, List.filter_append,
          List.filter_cons, hbe, ih hs' ht']

/-- The grouping loop of `entries_to_string` computes the canonical
grouping over the declaration order. -/
theorem groupEntries_canon (l : List Entry) :
    groupEntries l = canonGroups entryTypes l := by
  induction l using List.reverseRecOn with
  | nil => simp [groupEntries, canonGroups_nil]
  | append_singleton l e ih =>
    have : groupEntries (l ++ [e]) = insertGrouped (groupEntries l) e := by
      simp [groupEntries, List.foldl_append]
    rw [this, ih, insertGrouped_canon entryTypes_sorted (mem_entryTypes e.type)]

theorem any_of_perm {l l' : List Entry} (h : List.Perm l l') (p : Entry → Bool) :
    l.any p = l'.any p := by
  cases hl : l.any p <;> cases hl' : l'.any p <;> try rfl
  · rw [List.any_eq_true] at hl'
    obtain ⟨x, hx, hpx⟩ := hl'
    have : l.any p = true := List.any_eq_true.mpr ⟨x, h.mem_iff.mpr hx, hpx⟩
    rw [hl] at this
    exact this
  · rw [List.any_eq_true] at hl
    obtain ⟨x, hx, hpx⟩ := hl
    have : l'.any p = true := List.any_eq_true.mpr ⟨x, h.mem_iff.mp hx, hpx⟩
    rw [hl'] at this
    exact this.symm

/-- C5: the groups of a rendered release section are the categories in the
fixed `EntryType` declaration order (empty categories omitted), each
paired with its entries in input order; the rendered text is the
corresponding concatenation; and the heading sequence does not depend on
the order in which the entries were read. -/
theorem release_groups_in_declaration_order (l : List Entry) :
    groupEntries l =
      (entryTypes.filter fun t => l.any fun e => e.type == t).map
        (fun t => (t, l.filter fun e => e.type == t)) ∧
    (l ≠ [] → ∀ v d now,
      entries_to_string l v d now =
        "## [" ++ v ++ "] - " ++ formatDate (d.getD now) ++ "\n\n" ++
          strTrim (String.join
            ((entryTypes.filter fun t => l.any fun e => e.type == t).map
              fun t => sectionFor t (l.filter fun e => e.type == t))) ++ "\n") ∧
    ∀ l', List.Perm l l' →
      (groupEntries l).map Prod.fst = (groupEntries l').map Prod.fst := by
  refine ⟨?_, ?_, ?_⟩
  · rw [groupEntries_canon, canonGroups_eq_filter_map]
  · intro hne v d now
    have hne' : l.isEmpty = false := by
      cases l with
      | nil => exact absurd rfl hne
      | cons x xs => rfl
    simp only [entries_to_string, hne', Bool.false_eq_true, if_false,
      groupEntries_canon, canonGroups_eq_filter_map, List.map_map]
    apply strExt
    simp [Function.comp_def]
  · intro l' hp
    rw [groupEntries_canon, groupEntries_canon,
      canonGroups_eq_filter_map, canonGroups_eq_filter_map]
    simp only [List.map_map]
    have : (entryTypes.filter fun t => l.any fun e => e.type == t)
        = entryTypes.filter fun t => l'.any fun e => e.type == t := by
      apply List.filter_congr
      intro t _
      rw [any_of_perm hp]
    rw [this]
    simp [Function.comp_def]

/-- Witness for C5 at a concrete one-entry list and a concrete date: the
rendered text equation holds with the nonempty hypothesis discharged, and
the heading sequence is invariant under the identity permutation. -/
theorem release_groups_in_declaration_order_witness :
    (entries_to_string
        [{ author := "a", title := "T", description := none, type := .Added,
           is_breaking_change := false, issue := "1" }] "1.0.0"
        (some ⟨2024, 2, 15⟩) ⟨2024, 2, 15⟩ =
      "## [" ++ "1.0.0" ++ "] - " ++
        formatDate ((some (⟨2024, 2, 15⟩ : SDate)).getD ⟨2024, 2, 15⟩) ++ "\n\n" ++
        strTrim (String.join
          ((entryTypes.filter fun t =>
              [{ author := "a", title := "T", description := none, type := .Added,
                 is_breaking_change := false, issue := "1" : Entry }].any
                fun e => e.type == t).map
            fun t => sectionFor t
              ([{ author := "a", title := "T", description := none, type := .Added,
                  is_breaking_change := false, issue := "1" : Entry }].filter
                fun e => e.type == t))) ++ "\n") ∧
    (groupEntries
        [{ author := "a", title := "T", description := none, type := .Added,
           is_breaking_change := false, issue := "1" }]).map Prod.fst =
      (groupEntries
        [{ author := "a", title := "T", description := none, type := .Added,
           is_breaking_change := false, issue := "1" }]).map Prod.fst :=
  ⟨(release_groups_in_declaration_order _).2.1 (by simp) "1.0.0" _ _,
   (release_groups_in_declaration_order _).2.2 _ (List.Perm.refl _)⟩

/-! ## Merge failure atomicity (C2) and the empty-set no-op (C3) -/

/-- Whether an event is the removal of a pending entry file. -/
def isRemoval : FsEvent → Bool
  | .entryRemoved _ => true
  | _ => false

theorem filter_isRemoval_reads (files : List (String × String)) :
    (files.map fun f => FsEvent.entryRead f.1).filter isRemoval = [] := by
  induction files with
  | nil => rfl
  | cons f fs ih => simp [isRemoval, ih]

/-- The read-replace-write body touches only the document and its log. -/
theorem writeChangelogBody_frame (c : String) (s : FsState) :
    (writeChangelogBody c s).2.entryFiles = s.entryFiles ∧
    (writeChangelogBody c s).2.storeDirExists = s.storeDirExists ∧
    (writeChangelogBody c s).2.writeOk = s.writeOk ∧
    (writeChangelogBody c s).2.events.filter isRemoval = s.events.filter isRemoval := by
  rw [writeChangelogBody]
  by_cases hce : c = ""
  · simp [hce]
  · cases hc : s.changelog with
    | none => simp [hce]
    | some doc =>
      cases hw : s.writeOk <;>
        simp [hce, hw, List.filter_append, isRemoval]

/-- `write_changelog` touches only the document and its log: the entry
files, the store directory, the write oracle, and the removal events are
untouched, whatever branch runs. -/
theorem write_changelog_frame (c : String) (p : Option String) (s : FsState) :
    (write_changelog c p s).2.entryFiles = s.entryFiles ∧
    (write_changelog c p s).2.storeDirExists = s.storeDirExists ∧
    (write_changelog c p s).2.writeOk = s.writeOk ∧
    (write_changelog c p s).2.events.filter isRemoval = s.events.filter isRemoval := by
  rw [write_changelog]
  cases hc : s.changelog with
  | none =>
    cases hw : s.writeOk with
    | false => simp [hw]
    | true =>
      obtain ⟨h1, h2, h3, h4⟩ := writeChangelogBody_frame c
        { storeDirExists := s.storeDirExists, entryFiles := s.entryFiles,
          changelog := some baseChangelogContent, writeOk := true,
          events := s.events ++ [FsEvent.docCreate] }
      exact ⟨h1, h2, h3, h4.trans (by simp [List.filter_append, isRemoval])⟩
  | some doc => exact writeChangelogBody_frame c s

/-- C2: whenever `merge_entries` returns an error — a failing read, a
failing deserialization, or a failing document write — no pending entry
file has been removed: the store's files are exactly as before the call,
and no removal event has been logged; the store is cleared only after the
document write has returned success. -/
theorem merge_error_leaves_store_untouched
    (v : String) (d : Option SDate) (cl : Option String) (now : SDate)
    (s : FsState) (err : MergeErr)
    (h : (merge_entries v d cl now s).1 = .error err) :
    (merge_entries v d cl now s).2.entryFiles = s.entryFiles ∧
    (merge_entries v d cl now s).2.events.filter isRemoval
      = s.events.filter isRemoval := by
  by_cases hdir : s.storeDirExists = true
  · rw [merge_entries, read_entries, if_pos hdir] at h ⊢
    simp only [] at h ⊢
    cases hp : parseEntries
        ((s.entryFiles.filter fun f => isJsonFile f.1).map (·.2)) with
    | error msg =>
      exact ⟨rfl, by simp [List.filter_append, filter_isRemoval_reads]⟩
    | ok entries =>
      rw [hp] at h
      simp only [] at h ⊢
      cases hw : write_changelog (entries_to_string entries v d now) cl
          { s with
              events := s.events ++
                (s.entryFiles.filter fun f => isJsonFile f.1).map
                  fun f => FsEvent.entryRead f.1 } with
      | mk r2 s2 =>
        rw [hw] at h
        obtain ⟨hwf, hwd, hwo, hwr⟩ := write_changelog_frame
          (entries_to_string entries v d now) cl
          { s with
              events := s.events ++
                (s.entryFiles.filter fun f => isJsonFile f.1).map
                  fun f => FsEvent.entryRead f.1 }
        rw [hw] at hwf hwd hwr
        cases r2 with
        | error e2 =>
          refine ⟨hwf, hwr.trans ?_⟩
          simp [List.filter_append, filter_isRemoval_reads]
        | ok u =>
          have hdir2 : s2.storeDirExists = true := hwd.trans hdir
          simp only [] at h
          rw [clear_entries, if_pos hdir2] at h
          simp at h
  · rw [merge_entries, read_entries, if_neg hdir]
    exact ⟨rfl, rfl⟩

/-- Entries whose `.json` filter is empty contribute nothing: the negated
filter returns the whole list. -/
theorem filter_not_of_filter_nil {α : Type} (l : List α) (p : α → Bool)
    (h : l.filter p = []) : (l.filter fun x => !p x) = l := by
  induction l with
  | nil => rfl
  | cons a l ih =>
    rw [List.filter_cons] at h
    cases hpa : p a with
    | true => rw [hpa] at h; simp at h
    | false =>
      rw [hpa] at h
      simp only [Bool.false_eq_true, if_false] at h
      simp [List.filter_cons, hpa, ih h]

/-- C3: merging with zero pending entries is a complete no-op on an
existing document: `merge_entries` succeeds and returns the state exactly
as it was — same document bytes, same files, and no new filesystem event,
so the document is not even re-opened. -/
theorem merge_with_no_pending_entries_is_noop
    (v : String) (d : Option SDate) (cl : Option String) (now : SDate)
    (s : FsState) (doc : String)
    (hdoc : s.changelog = some doc)
    (hdir : s.storeDirExists = true)
    (hempty : s.entryFiles.filter (fun f => isJsonFile f.1) = []) :
    merge_entries v d cl now s = (.ok (), s) := by
  have hs1 : { s with events := s.events } = s := rfl
  rw [merge_entries, read_entries, if_pos hdir, hempty]
  simp only [List.map_nil, List.append_nil]
  rw [hs1]
  try simp only []
  rw [show parseEntries [] = .ok [] from rfl]
  try simp only []
  rw [show entries_to_string [] v d now = "" from rfl, write_changelog, hdoc]
  try simp only []
  rw [writeChangelogBody, if_pos rfl]
  try simp only []
  rw [clear_entries, if_pos hdir, hempty, filter_not_of_filter_nil _ _ hempty]
  simp only [List.map_nil, List.append_nil]
  try rw [hs1]

/-- Witness for C2 at a concrete store: one pending file holding the
unparsable document `"x"` makes the merge fail, and the file and the
removal log are exactly as before. -/
theorem merge_error_leaves_store_untouched_witness :
    (merge_entries "1.0.0" (some ⟨2024, 1, 1⟩) none ⟨2024, 1, 1⟩
        { storeDirExists := true, entryFiles := [("a.json", "x")],
          changelog := some "## [Unreleased]\n", writeOk := true,
          events := [] }).2.entryFiles = [("a.json", "x")] ∧
    (merge_entries "1.0.0" (some ⟨2024, 1, 1⟩) none ⟨2024, 1, 1⟩
        { storeDirExists := true, entryFiles := [("a.json", "x")],
          changelog := some "## [Unreleased]\n", writeOk := true,
          events := [] }).2.events.filter isRemoval = [] :=
  merge_error_leaves_store_untouched "1.0.0" (some ⟨2024, 1, 1⟩) none ⟨2024, 1, 1⟩
    { storeDirExists := true, entryFiles := [("a.json", "x")],
      changelog := some "## [Unreleased]\n", writeOk := true, events := [] }
    (.parse "unexpected character") (by rfl)

/-- Witness for C3 at a concrete state: a store whose only file is not a
`.json` entry, so nothing is pending, and an existing document; the merge
returns the state unchanged. -/
theorem merge_with_no_pending_entries_is_noop_witness :
    merge_entries "1.0.0" (some ⟨2024, 1, 1⟩) none ⟨2024, 1, 1⟩
        { storeDirExists := true, entryFiles := [("readme.txt", "hi")],
          changelog := some "# Changelog\n\n## [Unreleased]\n", writeOk := true,
          events := [] }
      = (.ok (),
         { storeDirExists := true, entryFiles := [("readme.txt", "hi")],
           changelog := some "# Changelog\n\n## [Unreleased]\n", writeOk := true,
           events := [] }) :=
  merge_with_no_pending_entries_is_noop "1.0.0" (some ⟨2024, 1, 1⟩) none ⟨2024, 1, 1⟩
    _ "# Changelog\n\n## [Unreleased]\n" rfl rfl (by rfl)

/-! ## Merge against a document without the anchor line (C9) -/

theorem isPrefixOf_eq_false_iff (pat l : List Char) :
    pat.isPrefixOf l = false ↔ ¬ ∃ t, l = pat ++ t := by
  induction pat generalizing l with
  | nil => simp [List.isPrefixOf]
  | cons p ps ih =>
    cases l with
    | nil => simp [List.isPrefixOf]
    | cons c cs =>
      rw [List.isPrefixOf]
      by_cases hpc : p = c
      · subst hpc
        rw [beq_self_eq_true, Bool.true_and, ih cs]
        constructor
        · rintro hno ⟨t, ht⟩
          rw [List.cons_append, List.cons.injEq] at ht
          exact hno ⟨t, ht.2⟩
        · rintro hno ⟨t, ht⟩
          exact hno ⟨t, by rw [ht, List.cons_append]⟩
      · have hb : (p == c) = false := beq_eq_false_iff_ne.mpr hpc
        rw [hb, Bool.false_and]
        constructor
        · rintro - ⟨t, ht⟩
          rw [List.cons_append, List.cons.injEq] at ht
          exact hpc ht.1.symm
        · intro _
          rfl

/-- `occursIn pat l = false` says exactly that `pat` occurs nowhere in `l`
as a contiguous run. -/
theorem occursIn_eq_false_iff (pat l : List Char) :
    occursIn pat l = false ↔ ¬ ∃ l₁ l₂, l = l₁ ++ (pat ++ l₂) := by
  induction l with
  | nil =>
    rw [occursIn]
    cases pat with
    | nil => simp
    | cons p ps => simp
  | cons c cs ih =>
    rw [occursIn, Bool.or_eq_false_iff, isPrefixOf_eq_false_iff, ih]
    constructor
    · rintro ⟨h1, h2⟩ ⟨l₁, l₂, hl⟩
      cases l₁ with
      | nil => exact h1 ⟨l₂, by simpa using hl⟩
      | cons x xs =>
        rw [List.cons_append, List.cons.injEq] at hl
        exact h2 ⟨xs, l₂, hl.2⟩
    · intro hno
      constructor
      · rintro ⟨t, ht⟩
        exact hno ⟨[], t, by simpa using ht⟩
      · rintro ⟨l₁, l₂, hl⟩
        exact hno ⟨c :: l₁, l₂, by rw [hl, List.cons_append]⟩

/-- When the pattern occurs nowhere, `str::replace` copies its input. -/
theorem replaceGo_id {pat : List Char} (rep : List Char) :
    ∀ (n : Nat) (l : List Char), occursIn pat l = false → replaceGo pat rep n l = l
  | 0, [], _ => rfl
  | 0, _ :: _, _ => rfl
  | _ + 1, [], _ => rfl
  | n + 1, c :: rest, h => by
    rw [occursIn, Bool.or_eq_false_iff] at h
    rw [replaceGo, if_neg (by simp [h.1]), replaceGo_id rep n rest h.2]

/-- `replaceAll` on a document that does not contain the pattern is the
identity. -/
theorem replaceAll_id {s pat : String} (rep : String)
    (h : occursIn pat.toList s.toList = false) : replaceAll s pat rep = s := by
  rw [replaceAll, replaceGo_id _ _ _ h]
  rfl

/-- Deserializing a batch keeps its size. -/
theorem parseEntries_length {xs : List String} {es : List Entry}
    (h : parseEntries xs = .ok es) : es.length = xs.length := by
  induction xs generalizing es with
  | nil =>
    rw [parseEntries] at h
    cases h
    rfl
  | cons x xs ih =>
    rw [parseEntries] at h
    cases hfx : Entry.from_json x with
    | error msg => rw [hfx] at h; cases h
    | ok e =>
      rw [hfx] at h
      cases hps : parseEntries xs with
      | error msg => rw [hps] at h; cases h
      | ok es' =>
        rw [hps] at h
        cases h
        simp [ih hps]

/-- A nonempty batch renders a nonempty release section. -/
theorem entries_to_string_ne_empty {es : List Entry} (hne : es ≠ [])
    (v : String) (d : Option SDate) (now : SDate) :
    entries_to_string es v d now ≠ "" := by
  have hie : es.isEmpty = false := by
    cases es with
    | nil => exact absurd rfl hne
    | cons x xs => rfl
  rw [entries_to_string, hie]
  simp only [Bool.false_eq_true, if_false]
  intro h
  have hd := congrArg String.data h
  simp [String.data_append] at hd

/-- The two sides of a filter split never share an element. -/
theorem filter_of_filter_not {α : Type} (l : List α) (p : α → Bool) :
    (l.filter fun x => !p x).filter p = [] := by
  induction l with
  | nil => rfl
  | cons a l ih =>
    cases hp : p a <;> simp [List.filter_cons, hp, ih]

/-- C9: merging a non-empty, well-formed pending set into an existing
document that contains no `## [Unreleased]` anchor line still succeeds:
the document is read and written back byte-for-byte unchanged (the
rendered section is spliced nowhere), and every pending entry file is
removed from the store. -/
theorem merge_without_anchor_succeeds_and_clears
    (v : String) (d : Option SDate) (cl : Option String) (now : SDate)
    (s : FsState) (doc : String) (es : List Entry)
    (hdoc : s.changelog = some doc)
    (hdir : s.storeDirExists = true)
    (hwOk : s.writeOk = true)
    (hanch : ¬ ∃ l₁ l₂, doc.toList = l₁ ++ (unreleasedAnchor.toList ++ l₂))
    (hparse : parseEntries
        ((s.entryFiles.filter fun f => isJsonFile f.1).map (·.2)) = .ok es)
    (hpend : (s.entryFiles.filter fun f => isJsonFile f.1) ≠ []) :
    (merge_entries v d cl now s).1 = .ok () ∧
    (merge_entries v d cl now s).2.changelog = some doc ∧
    (merge_entries v d cl now s).2.entryFiles.filter (fun f => isJsonFile f.1)
      = [] ∧
    FsEvent.docWrite ∈ (merge_entries v d cl now s).2.events := by
  have hes : es ≠ [] := by
    intro he
    have := parseEntries_length hparse
    rw [he, List.length_map] at this
    exact hpend (List.length_eq_zero.mp this.symm)
  have hcne := entries_to_string_ne_empty hes v d now
  have hocc : occursIn unreleasedAnchor.toList doc.toList = false :=
    (occursIn_eq_false_iff _ _).mpr hanch
  rw [merge_entries, read_entries, if_pos hdir]
  try simp only []
  rw [hparse]
  try simp only []
  rw [write_changelog]
  try simp only []
  rw [hdoc]
  try simp only []
  rw [writeChangelogBody, if_neg hcne]
  try simp only []
  rw [if_pos hwOk, replaceAll_id _ hocc]
  try simp only []
  rw [clear_entries, if_pos hdir]
  try simp only []
  refine ⟨by trivial, by trivial, ?_, ?_⟩
  · exact filter_of_filter_not _ _
  · simp

set_option maxRecDepth 80000 in
/-- Witness for C9 at a concrete state: one valid pending entry and a
document with no anchor line; the merge succeeds, the document keeps its
bytes, the write happened, and the pending file is gone. -/
theorem merge_without_anchor_succeeds_and_clears_witness :
    (merge_entries "2.0.0" (some ⟨2024, 1, 2⟩) none ⟨2024, 1, 2⟩
        { storeDirExists := true,
          entryFiles :=
            [("a.json",
              "\x7b\"author\":\"A\",\"title\":\"T\",\"type\":\"Added\",\"isBreakingChange\":false,\"issue\":\"1\"\x7d")],
          changelog := some "# Changelog only\n", writeOk := true,
          events := [] }).1 = .ok () ∧
    (merge_entries "2.0.0" (some ⟨2024, 1, 2⟩) none ⟨2024, 1, 2⟩
        { storeDirExists := true,
          entryFiles :=
            [("a.json",
              "\x7b\"author\":\"A\",\"title\":\"T\",\"type\":\"Added\",\"isBreakingChange\":false,\"issue\":\"1\"\x7d")],
          changelog := some "# Changelog only\n", writeOk := true,
          events := [] }).2.changelog = some "# Changelog only\n" ∧
    (merge_entries "2.0.0" (some ⟨2024, 1, 2⟩) none ⟨2024, 1, 2⟩
        { storeDirExists := true,
          entryFiles :=
            [("a.json",
              "\x7b\"author\":\"A\",\"title\":\"T\",\"type\":\"Added\",\"isBreakingChange\":false,\"issue\":\"1\"\x7d")],
          changelog := some "# Changelog only\n", writeOk := true,
          events := [] }).2.entryFiles.filter (fun f => isJsonFile f.1) = [] ∧
    FsEvent.docWrite ∈
      (merge_entries "2.0.0" (some ⟨2024, 1, 2⟩) none ⟨2024, 1, 2⟩
        { storeDirExists := true,
          entryFiles :=
            [("a.json",
              "\x7b\"author\":\"A\",\"title\":\"T\",\"type\":\"Added\",\"isBreakingChange\":false,\"issue\":\"1\"\x7d")],
          changelog := some "# Changelog only\n", writeOk := true,
          events := [] }).2.events :=
  merge_without_anchor_succeeds_and_clears "2.0.0" (some ⟨2024, 1, 2⟩) none
    ⟨2024, 1, 2⟩ _ "# Changelog only\n"
    [{ author := "A", title := "T", description := none, type := .Added,
       is_breaking_change := false, issue := "1" }]
    rfl rfl rfl ((occursIn_eq_false_iff _ _).mp (by rfl)) (by rfl) (by decide)

/-! ## The serialization round trip (C4) -/

theorem strMk_toList (s : String) : String.mk s.toList = s := rfl

theorem dropWs_cons_ws {c : Char} (h : isJWs c = true) (l : List Char) :
    dropWs (c :: l) = dropWs l := by
  rw [dropWs, if_pos h]

theorem dropWs_cons_not {c : Char} (h : isJWs c = false) (l : List Char) :
    dropWs (c :: l) = c :: l := by
  rw [dropWs, if_neg (by simp [h])]

theorem dropWs_indent (n : Nat) (l : List Char) :
    dropWs (indentChars n ++ l) = dropWs l := by
  induction n with
  | zero => rfl
  | succ n ih =>
    rw [indentChars]
    simp only [List.cons_append]
    rw [dropWs_cons_ws (by rfl), dropWs_cons_ws (by rfl),
      dropWs_cons_ws (by rfl), dropWs_cons_ws (by rfl), ih]

theorem dropWs_idem (l : List Char) : dropWs (dropWs l) = dropWs l := by
  induction l with
  | nil => rfl
  | cons c cs ih =>
    cases hc : isJWs c with
    | true => rw [dropWs_cons_ws hc, ih]
    | false => rw [dropWs_cons_not hc, dropWs_cons_not hc]

theorem hexVal_hexDigit {k : Nat} (h : k < 16) : hexVal (hexDigit k) = some k := by
  interval_cases k <;> rfl

/-- The hex pair the escaper writes decodes to the escaped code point. -/
theorem hex4_escape {x y : Nat} (hx : x < 16) (hy : y < 16) :
    hex4 '0' '0' (hexDigit x) (hexDigit y) = some (x * 16 + y) := by
  rw [hex4, show hexVal '0' = some 0 from by decide,
    hexVal_hexDigit hx, hexVal_hexDigit hy]
  simp

/-- Parsing one escaped character undoes `escChar`. -/
theorem parseStrBody_escChar (c : Char) (acc rest : List Char) :
    parseStrBody acc (escChar c ++ rest) = parseStrBody (c :: acc) rest := by
  by_cases h1 : c = '"'
  · subst h1
    rw [show escChar '"' ++ rest = '\\' :: '"' :: rest from rfl, parseStrBody.eq_def]
    simp [parseEsc]
  by_cases h2 : c = '\\'
  · subst h2
    rw [show escChar '\\' ++ rest = '\\' :: '\\' :: rest from rfl, parseStrBody.eq_def]
    simp [parseEsc]
  by_cases h3 : c = Char.ofNat 8
  · subst h3
    rw [show escChar (Char.ofNat 8) ++ rest = '\\' :: 'b' :: rest from rfl,
      parseStrBody.eq_def]
    simp [parseEsc]
  by_cases h4 : c = '\t'
  · subst h4
    rw [show escChar '\t' ++ rest = '\\' :: 't' :: rest from rfl, parseStrBody.eq_def]
    simp [parseEsc]
  by_cases h5 : c = '\n'
  · subst h5
    rw [show escChar '\n' ++ rest = '\\' :: 'n' :: rest from rfl, parseStrBody.eq_def]
    simp [parseEsc]
  by_cases h6 : c = Char.ofNat 12
  · subst h6
    rw [show escChar (Char.ofNat 12) ++ rest = '\\' :: 'f' :: rest from rfl,
      parseStrBody.eq_def]
    simp [parseEsc]
  by_cases h7 : c = '\r'
  · subst h7
    rw [show escChar '\r' ++ rest = '\\' :: 'r' :: rest from rfl, parseStrBody.eq_def]
    simp [parseEsc]
  by_cases h8 : c.toNat < 32
  · rw [escChar, if_neg h1, if_neg h2, if_neg h3, if_neg h4, if_neg h5, if_neg h6,
      if_neg h7, if_pos h8]
    simp only [List.cons_append, List.nil_append]
    rw [parseStrBody.eq_def]
    simp only [if_neg (by decide : ¬('\\' : Char) = '"'), if_true]
    rw [parseEsc.eq_def]
    simp only [if_true]
    rw [parseHexEsc.eq_def]
    simp only []
    rw [hex4_escape (by omega) (by omega)]
    simp only []
    rw [show c.toNat / 16 * 16 + c.toNat % 16 = c.toNat from by omega]
    rw [if_pos (by omega : c.toNat < 0xD800 ∨ (0xDFFF < c.toNat ∧ c.toNat < 0x110000)),
      Char.ofNat_toNat]
  · rw [escChar, if_neg h1, if_neg h2, if_neg h3, if_neg h4, if_neg h5, if_neg h6,
      if_neg h7, if_neg h8]
    simp only [List.cons_append, List.nil_append]
    rw [parseStrBody.eq_def]
    simp only []
    rw [if_neg h1, if_neg h2]

/-- Parsing an escaped run stops exactly at the closing quote and recovers
the original characters. -/
theorem parseStrBody_escStr (l : List Char) : ∀ (acc rest : List Char),
    parseStrBody acc (escStr l ++ '"' :: rest)
      = .ok (String.mk (acc.reverse ++ l), rest) := by
  induction l with
  | nil =>
    intro acc rest
    rw [escStr]
    simp only [List.nil_append]
    rw [parseStrBody.eq_def]
    simp
  | cons c cs ih =>
    intro acc rest
    rw [escStr, List.append_assoc, parseStrBody_escChar, ih]
    simp

/-- The string-literal round trip, quotes included. -/
theorem parseStr_quoted (s : String) (rest : List Char) :
    parseStrBody [] (escStr s.toList ++ '"' :: rest) = .ok (s, rest) := by
  rw [parseStrBody_escStr]
  simp [strMk_toList]

/-- Whether a JSON value is an atom (the only shapes entry fields take). -/
def isScalar : Json → Bool
  | .null => true
  | .bool _ => true
  | .str _ => true
  | _ => false

/-- A scalar value preceded by the formatter's single space parses back,
with any fuel to spare. -/
theorem parseValue_scalar (j : Json) (hj : isScalar j = true)
    (g lim : Nat) (rest : List Char) :
    parseValue (g + 1) lim (' ' :: (renderValue 1 j ++ rest)) = .ok (j, rest) := by
  cases j with
  | null =>
    rw [show renderValue 1 .null = ['n', 'u', 'l', 'l'] from rfl, parseValue.eq_def]
    simp [dropWs, isJWs]
  | bool b =>
    cases b with
    | true =>
      rw [show renderValue 1 (.bool true) = ['t', 'r', 'u', 'e'] from rfl,
        parseValue.eq_def]
      simp [dropWs, isJWs]
    | false =>
      rw [show renderValue 1 (.bool false) = ['f', 'a', 'l', 's', 'e'] from rfl,
        parseValue.eq_def]
      simp [dropWs, isJWs]
  | str s =>
    rw [show renderValue 1 (.str s) = quoteStr s from rfl, quoteStr]
    have harg : ' ' :: (('"' :: (escStr s.toList ++ ['"'])) ++ rest)
        = ' ' :: '"' :: (escStr s.toList ++ '"' :: rest) := by
      simp
    rw [harg, parseValue.eq_def]
    have hdw : dropWs (' ' :: '"' :: (escStr s.toList ++ '"' :: rest))
        = '"' :: (escStr s.toList ++ '"' :: rest) := by
      rw [dropWs_cons_ws (by rfl), dropWs_cons_not (by rfl)]
    simp only [hdw]
    rw [parseStr_quoted]
  | num n => simp [isScalar] at hj
  | arr xs => simp [isScalar] at hj
  | obj fs => simp [isScalar] at hj

/-- `parseFields` skips leading whitespace. -/
theorem parseFields_ws {c : Char} (hc : isJWs c = true) (f lim : Nat)
    (l : List Char) :
    parseFields (f + 1) lim (c :: l) = parseFields (f + 1) lim l := by
  rw [parseFields.eq_def]
  conv_rhs => rw [parseFields.eq_def]
  simp only [dropWs_cons_ws hc]

theorem dropWs_quote (l : List Char) : dropWs ('"' :: l) = '"' :: l :=
  dropWs_cons_not (by rfl) l

theorem dropWs_colon (l : List Char) : dropWs (':' :: l) = ':' :: l :=
  dropWs_cons_not (by rfl) l

theorem dropWs_comma (l : List Char) : dropWs (',' :: l) = ',' :: l :=
  dropWs_cons_not (by rfl) l

theorem dropWs_rbrace (l : List Char) : dropWs ('\x7d' :: l) = '\x7d' :: l :=
  dropWs_cons_not (by rfl) l

theorem dropWs_space (l : List Char) : dropWs (' ' :: l) = dropWs l :=
  dropWs_cons_ws (by rfl) l

theorem dropWs_nl (l : List Char) : dropWs ('\n' :: l) = dropWs l :=
  dropWs_cons_ws (by rfl) l

/-- The member chain of a rendered level-one object body, followed by the
closing line, parses back to exactly those members, for any fuel above the
member count. -/
theorem parseFields_chain :
    ∀ (ms : List (String × Json)) (k : String) (j : Json) (f lim : Nat)
      (rest : List Char),
      isScalar j = true → (∀ kv ∈ ms, isScalar kv.2 = true) →
      ms.length + 1 < f →
      parseFields f lim (renderFields 1 ((k, j) :: ms) ++ '\n' :: '\x7d' :: rest)
        = .ok ((k, j) :: ms, rest) := by
  intro ms
  induction ms with
  | nil =>
    intro k j f lim rest hj _ hf
    obtain ⟨f1, rfl⟩ : ∃ f1, f = f1 + 1 := ⟨f - 1, by omega⟩
    obtain ⟨f2, rfl⟩ : ∃ f2, f1 = f2 + 1 := ⟨f1 - 1, by omega⟩
    rw [renderFields.eq_def, parseFields.eq_def]
    simp only [quoteStr, List.append_assoc, List.cons_append, List.nil_append,
      dropWs_indent, dropWs_quote, dropWs_colon, dropWs_comma, dropWs_rbrace,
      dropWs_space, dropWs_nl, parseStr_quoted, hj, parseValue_scalar]
  | cons m2 ms' ih =>
    intro k j f lim rest hj hms hf
    obtain ⟨k2, j2⟩ := m2
    obtain ⟨f1, rfl⟩ : ∃ f1, f = f1 + 1 := ⟨f - 1, by omega⟩
    obtain ⟨f2, rfl⟩ : ∃ f2, f1 = f2 + 1 := ⟨f1 - 1, by omega⟩
    rw [renderFields.eq_def, parseFields.eq_def]
    simp only [quoteStr, List.append_assoc, List.cons_append, List.nil_append,
      dropWs_indent, dropWs_quote, dropWs_colon, dropWs_comma, dropWs_rbrace,
      dropWs_space, dropWs_nl, parseStr_quoted, hj, parseValue_scalar]
    rw [parseFields_ws (by rfl),
      ih k2 j2 (f2 + 1) lim rest (hms (k2, j2) (by simp))
        (fun kv hkv => hms kv (by simp [hkv])) (by simp at hf ⊢; omega)]

theorem dropWs_lbrace (l : List Char) : dropWs ('\x7b' :: l) = '\x7b' :: l :=
  dropWs_cons_not (by rfl) l

/-- `parseFields` first drops whitespace, so pre-dropping changes
nothing. -/
theorem parseFields_dropWs (f lim : Nat) (l : List Char) :
    parseFields (f + 1) lim (dropWs l) = parseFields (f + 1) lim l := by
  rw [parseFields.eq_def]
  conv_rhs => rw [parseFields.eq_def]
  simp only [dropWs_idem]

/-- The derived deserializer recovers the `EntryType` from its variant
name. -/
theorem decodeEntryType_toStr (t : EntryType) :
    decodeEntryType (.str t.toStr) = .ok t := by
  cases t <;> rfl

/-- A non-empty rendered member list starts, after its indentation, with
the first key's opening quote. -/
theorem renderFields_shape (k : String) (j : Json) (ms : List (String × Json)) :
    ∃ Z, renderFields 1 ((k, j) :: ms)
      = indentChars 1 ++ ('"' :: (escStr k.toList ++ ('"' :: (':' :: ' ' :: Z)))) := by
  cases ms with
  | nil =>
    refine ⟨renderValue 1 j, ?_⟩
    rw [renderFields.eq_def]
    simp [quoteStr]
  | cons m2 ms' =>
    refine ⟨renderValue 1 j ++ ',' :: '\n' :: renderFields 1 (m2 :: ms'), ?_⟩
    rw [renderFields.eq_def]
    simp [quoteStr]

/-- A rendered non-empty member list is at least three characters long. -/
theorem renderFields_len (k : String) (j : Json) (ms : List (String × Json)) :
    3 ≤ (renderFields 1 ((k, j) :: ms)).length := by
  obtain ⟨Z, hZ⟩ := renderFields_shape k j ms
  rw [hZ]
  simp only [List.length_append, List.length_cons]
  omega

/-- The object branch of the value parser hands a rendered non-empty
member list straight to `parseFields`. -/
theorem parseValue_obj_nonempty (k : String) (j : Json) (ms : List (String × Json))
    (f lim : Nat) (rest : List Char) (hf : 0 < f) :
    parseValue (f + 1) (lim + 1)
        ('\x7b' :: '\n' :: (renderFields 1 ((k, j) :: ms) ++ rest))
      = (match parseFields f lim (renderFields 1 ((k, j) :: ms) ++ rest) with
         | .ok (fs, r) => .ok (.obj fs, r)
         | .error msg => .error msg) := by
  obtain ⟨f1, rfl⟩ : ∃ f1, f = f1 + 1 := ⟨f - 1, by omega⟩
  obtain ⟨Z, hZ⟩ := renderFields_shape k j ms
  rw [hZ]
  simp only [List.append_assoc, List.cons_append]
  rw [← parseFields_dropWs f1 lim (indentChars 1 ++ '"' ::
      (escStr k.toList ++ '"' :: ':' :: ' ' :: (Z ++ rest))),
    dropWs_indent, dropWs_quote, parseValue.eq_def]
  simp only [dropWs_lbrace, dropWs_nl, dropWs_indent, dropWs_quote]
  rfl

/-- The whole-document parse of a rendered entry recovers its JSON
value. -/
theorem parseDoc_to_json (e : Entry) : parseDoc (Entry.to_json e) = .ok e.encode := by
  obtain ⟨a, t, d, ty, bk, i⟩ := e
  have hren : renderValue 0 (Entry.encode ⟨a, t, d, ty, bk, i⟩)
      = '\x7b' :: '\n' ::
        (renderFields 1 [("author", Json.str a), ("title", Json.str t),
          ("description", match d with | none => Json.null | some dd => Json.str dd),
          ("type", Json.str ty.toStr), ("isBreakingChange", Json.bool bk),
          ("issue", Json.str i)] ++ '\n' :: '\x7d' :: []) := by
    cases d <;> rfl
  have hL : (Entry.to_json ⟨a, t, d, ty, bk, i⟩).toList
      = renderValue 0 (Entry.encode ⟨a, t, d, ty, bk, i⟩) := rfl
  rw [parseDoc, hL, hren, show (128 : Nat) = 127 + 1 from rfl,
    parseValue_obj_nonempty, parseFields_chain]
  · simp only [dropWs]
    cases d <;> rfl
  · rfl
  · intro kv hkv
    simp only [List.mem_cons, List.not_mem_nil, or_false] at hkv
    rcases hkv with rfl | rfl | rfl | rfl | rfl
    · rfl
    · cases d <;> rfl
    · rfl
    · rfl
    · rfl
  · clear hL hren
    have h3 := renderFields_len "author" (Json.str a)
      [("title", Json.str t),
       ("description", match d with | none => Json.null | some dd => Json.str dd),
       ("type", Json.str ty.toStr), ("isBreakingChange", Json.bool bk),
       ("issue", Json.str i)]
    simp only [List.length_cons, List.length_nil, List.length_append] at h3 ⊢
    omega
  · simp

set_option maxRecDepth 40000 in
/-- C4: the serialization round trip — deserializing a serialized entry
gives the entry back unchanged. -/
theorem from_json_to_json (e : Entry) :
    Entry.from_json (Entry.to_json e) = .ok e := by
  rw [Entry.from_json, parseDoc_to_json]
  obtain ⟨a, t, d, ty, bk, i⟩ := e
  cases d <;> cases ty <;> rfl

end Changelog

